import Mathlib

/-!
# Verification of the sequential PDF drawing analyzer (`src/app.py`)

Shallow embedding of the Streamlit application in `src/app.py`, which
extracts embedded raster images from an uploaded PDF and analyzes each one
with an external inference service, five per session.

Modelling conventions:

* A PDF document, as seen through `fitz`, is modelled abstractly: it is
  either unopenable (`fitz.open` raises) or a list of pages; enumerating a
  page's images may itself raise (modelled by `Page.fault`, covering
  `doc[page_num]` / `page.get_images()` raising, which the outer
  `try/except` of `extract_drawings_list` catches); each listed image
  either dereferences to raw bytes (`Img.ok`) or fails to extract
  (`Img.bad`, the inner per-image `try/except`).
* Raw bytes and decoded images are opaque `List Nat` values.
* Streamlit UI calls (`st.error`, `st.warning`, `st.success`, `st.write`,
  `st.image`, ...) and resource actions (`fitz.open` / `doc.close`) are
  recorded as an ordered trace of `Event`s; `st.rerun()` is a flag on the
  tick output (in Streamlit it raises, aborting the rest of the script).
* The external Gemini call is an oracle `DrawingRec → Option String`;
  `none` means the call (or `Image.open`) raised, which the `try/except`
  of `analyze_drawing` converts into an error report and a `None` return.
* One execution of the whole script top-to-bottom is one `tick`.
-/

/-- One image reference listed on a page: either it dereferences to raw
bytes (`doc.extract_image` succeeds) or extraction of this single image
raises (caught by the inner per-image handler). -/
inductive Img where
  | ok (xref : Nat) (bytes : List Nat)
  | bad (xref : Nat)
deriving DecidableEq, Repr

/-- One page of an opened document: enumerating its images either yields a
list (`page.get_images()`) or raises, which escapes to the outer handler
of `extract_drawings_list`. -/
inductive Page where
  | fault
  | imgs (l : List Img)
deriving DecidableEq, Repr

/-- A document as the PDF library sees the uploaded bytes: unopenable
(`fitz.open` raises) or a list of pages in document order. -/
inductive PdfDoc where
  | unopenable
  | pages (ps : List Page)
deriving DecidableEq, Repr

/-- A record appended to `self.drawings_list` (app.py lines 36-41). -/
structure DrawingRec where
  page : Nat
  drawing_number : Nat
  xref : Nat
  image_bytes : List Nat
deriving DecidableEq, Repr

/-- A record appended to `st.session_state.analyzed_drawings`
(`analyze_drawing`'s return value, app.py lines 90-95). -/
structure AnalysisResult where
  page : Nat
  drawing_number : Nat
  image : List Nat
  analysis : String
deriving DecidableEq, Repr

/-- Observable actions of one tick: resource events on the document handle
and Streamlit render/report calls, in program order. -/
inductive Event where
  /-- entry into `SequentialDrawingAnalyzer.extract_drawings_list` -/
  | extractCall
  /-- `fitz.open` succeeded: a document handle now exists -/
  | openDoc
  /-- `doc.close()` was called -/
  | closeDoc
  /-- `st.warning` for a single unextractable image (page, drawing number) -/
  | warnImg (page : Nat) (dn : Nat)
  /-- `st.error` in the outer handler of `extract_drawings_list` -/
  | extractError
  /-- `st.success("Found {n} drawings in the PDF!")` -/
  | found (n : Nat)
  /-- one `st.write("Drawing {dn} on Page {page}")` summary line -/
  | label (dn : Nat) (page : Nat)
  /-- `st.subheader("Analyzing Drawing {i} of {cap}")` -/
  | analyzingHeader (i : Nat) (cap : Nat)
  /-- `st.error` inside `analyze_drawing` for one failing drawing -/
  | inferError (dn : Nat)
  /-- `st.success("Completed analysis of first 5 drawings!")` -/
  | batchComplete
  /-- `st.info` that more than five drawings exist -/
  | moreExist
  /-- side-by-side display of one analyzed drawing -/
  | showResult (page : Nat) (dn : Nat)
  /-- `st.info` asking for an upload -/
  | infoUpload
deriving DecidableEq, Repr

/-- Instance state of `SequentialDrawingAnalyzer` (app.py lines 17-19). -/
structure AnalyzerState where
  drawings_list : List DrawingRec
  analyzed_drawings : List AnalysisResult
deriving DecidableEq, Repr

/-- `SequentialDrawingAnalyzer.__init__`. -/
def AnalyzerState.init : AnalyzerState := ⟨[], []⟩

/-- Inner image loop of `extract_drawings_list` (app.py lines 30-44):
iterate the page's image list with `enumerate`, appending a record for
each image whose bytes dereference, and emitting a warning for each image
whose extraction raises.  `pnum` is the 0-based page index, `idx` the
0-based position of the head of the remaining list.  Returns the records
appended on this page and the warning events, each in program order. -/
def extractImgs (pnum : Nat) (idx : Nat) : List Img → List DrawingRec × List Event
  | [] => ([], [])
  | Img.ok x b :: rest =>
      let r := extractImgs pnum (idx + 1) rest
      (⟨pnum + 1, idx + 1, x, b⟩ :: r.1, r.2)
  | Img.bad _ :: rest =>
      let r := extractImgs pnum (idx + 1) rest
      (r.1, Event.warnImg (pnum + 1) (idx + 1) :: r.2)

/-- Page loop of `extract_drawings_list` (app.py lines 26-44): process
pages in document order starting at 0-based index `pnum`.  A `Page.fault`
raises out of the loop to the outer handler: the Boolean result records
this abort, and no later page contributes. -/
def extractPages (pnum : Nat) : List Page → List DrawingRec × List Event × Bool
  | [] => ([], [], false)
  | Page.fault :: _ => ([], [], true)
  | Page.imgs l :: rest =>
      let r := extractImgs pnum 0 l
      let r' := extractPages (pnum + 1) rest
      (r.1 ++ r'.1, r.2 ++ r'.2.1, r'.2.2)

/-- Result of `extract_drawings_list`: the analyzer state after the call,
the method's return value, and the event trace. -/
structure ExtractOut where
  state : AnalyzerState
  ret : Nat
  events : List Event
deriving DecidableEq, Repr

/-- `SequentialDrawingAnalyzer.extract_drawings_list` (app.py lines
21-51).  Appends one record per extractable image to
`self.drawings_list` (never cleared first), in (page, page-local index)
order; on success closes the document and returns
`len(self.drawings_list)` — the accumulated total, not the number of new
records.  If `fitz.open` raises, or a page-level error escapes the loop,
the outer handler reports the error and returns 0; records appended
before the abort remain (the list is mutated in place), and `doc.close()`
is not reached on the abort path. -/
def extract_drawings_list (s : AnalyzerState) (doc : PdfDoc) : ExtractOut :=
  match doc with
  | PdfDoc.unopenable => ⟨s, 0, [Event.extractCall, Event.extractError]⟩
  | PdfDoc.pages ps =>
      let r := extractPages 0 ps
      let s' : AnalyzerState := ⟨s.drawings_list ++ r.1, s.analyzed_drawings⟩
      if r.2.2 then
        ⟨s', 0, Event.extractCall :: Event.openDoc :: r.2.1 ++ [Event.extractError]⟩
      else
        ⟨s', s'.drawings_list.length,
         Event.extractCall :: Event.openDoc :: r.2.1 ++ [Event.closeDoc]⟩

/-- `SequentialDrawingAnalyzer.analyze_drawing` (app.py lines 53-99).
The external call is an oracle from the drawing to the response text;
`none` models any exception in the `try` block (PIL decode failure,
network error, quota, ...), which the handler reports before returning
`None`. -/
def analyze_drawing (oracle : DrawingRec → Option String)
    (d : DrawingRec) : Option AnalysisResult × List Event :=
  match oracle d with
  | some t => (some ⟨d.page, d.drawing_number, d.image_bytes, t⟩, [])
  | none => (none, [Event.inferError d.drawing_number])

/-- The `st.session_state` slots initialized at app.py lines 105-112. -/
structure SessionState where
  processed : Bool
  analyzer : AnalyzerState
  current_analysis_index : Nat
  analyzed_drawings : List AnalysisResult
deriving DecidableEq, Repr

/-- Session-state initialization (app.py lines 105-112). -/
def SessionState.init : SessionState := ⟨false, AnalyzerState.init, 0, []⟩

/-- Output of one tick: the session state afterwards, the trace of
events, and whether `st.rerun()` was invoked. -/
structure TickOut where
  state : SessionState
  events : List Event
  rerun : Bool
deriving DecidableEq, Repr

/-- A placeholder drawing record for the (unreachable, see
`tick_index_lt`) out-of-bounds list access. -/
def defaultRec : DrawingRec := ⟨0, 0, 0, []⟩

/-- Display loop for accumulated results (app.py lines 168-183). -/
def displayResults (s : SessionState) : List Event :=
  s.analyzed_drawings.map (fun a => Event.showResult a.page a.drawing_number)

/-- Extraction branch of the script (app.py lines 119-137): if not yet
processed, run `extract_drawings_list` on the uploaded bytes, store the
analyzer back, mark the session processed, and emit the summary
(`st.success("Found {n} ...")` followed by one label line per stored
record).  The outer `except` at lines 135-137 is unreachable because
`extract_drawings_list` catches every exception internally, so
`processed` is never reset to `False`. -/
def extractBranch (s : SessionState) (doc : PdfDoc) : SessionState × List Event :=
  if s.processed then (s, [])
  else
    let out := extract_drawings_list s.analyzer doc
    let s' : SessionState := ⟨true, out.state, s.current_analysis_index,
                              s.analyzed_drawings⟩
    (s', out.events ++ [Event.found out.ret] ++
         out.state.drawings_list.map (fun d => Event.label d.drawing_number d.page))

/-- Analysis branch of the script (app.py lines 140-166) followed by the
display loop (lines 168-183): if processed and fewer than
`min(5, total)` drawings are analyzed, analyze the drawing at the
cursor; on success append the result, advance the cursor, and either
request `st.rerun()` (which aborts the script before the display loop)
or report batch completion; on failure change nothing.  Once the cap is
reached, only report that more drawings exist when total > 5. -/
def analysisBranch (oracle : DrawingRec → Option String) (s1 : SessionState) : TickOut :=
  if s1.processed then
    let cap := min 5 s1.analyzer.drawings_list.length
    let remaining_drawings := cap - s1.current_analysis_index
    if remaining_drawings > 0 then
      let current_drawing :=
        s1.analyzer.drawings_list.getD s1.current_analysis_index defaultRec
      let hdr := Event.analyzingHeader (s1.current_analysis_index + 1) cap
      let ar := analyze_drawing oracle current_drawing
      match ar.1 with
      | some res =>
          let s2 : SessionState := ⟨s1.processed, s1.analyzer,
                                    s1.current_analysis_index + 1,
                                    s1.analyzed_drawings ++ [res]⟩
          if remaining_drawings > 1 then
            ⟨s2, [hdr] ++ ar.2, true⟩
          else
            ⟨s2, [hdr] ++ ar.2 ++ [Event.batchComplete] ++ displayResults s2, false⟩
      | none =>
          ⟨s1, [hdr] ++ ar.2 ++ displayResults s1, false⟩
    else
      if s1.analyzer.drawings_list.length > 5 then
        ⟨s1, [Event.moreExist] ++ displayResults s1, false⟩
      else
        ⟨s1, displayResults s1, false⟩
  else
    ⟨s1, displayResults s1, false⟩

/-- One top-to-bottom execution of the script body (app.py lines
114-185), driven by the uploaded document (`none` = no file) and the
inference oracle.  The extraction branch and the analysis branch are
separate `if`s in the source — on the tick that performs extraction,
`st.session_state.processed` is already `True` at line 140, so the same
run falls through into the analysis branch. -/
def tick (oracle : DrawingRec → Option String) (s : SessionState)
    (upload : Option PdfDoc) : TickOut :=
  match upload with
  | none => ⟨s, [Event.infoUpload], false⟩
  | some doc =>
      let ext := extractBranch s doc
      let a := analysisBranch oracle ext.1
      ⟨a.state, ext.2 ++ a.events, a.rerun⟩

/-- One external input to a tick: the oracle in force and the upload. -/
structure TickInput where
  oracle : DrawingRec → Option String
  upload : Option PdfDoc

/-- Run a sequence of ticks from a state, accumulating the trace. -/
def runTicks (s : SessionState) : List TickInput → SessionState × List Event
  | [] => (s, [])
  | i :: rest =>
      let t := tick i.oracle s i.upload
      let r := runTicks t.state rest
      (r.1, t.events ++ r.2)

/-- The record sequence that `extract_drawings_list` appends for a given
document when starting from a fresh analyzer — a function of the
document alone, used to state purity and ordering properties. -/
def docRecords (doc : PdfDoc) : List DrawingRec :=
  (extract_drawings_list AnalyzerState.init doc).state.drawings_list

/-- The display order required of extraction output: page ascending,
then page-local drawing number ascending. -/
def RecOrder (a b : DrawingRec) : Prop :=
  a.page < b.page ∨ (a.page = b.page ∧ a.drawing_number < b.drawing_number)

/-! ### Concrete example documents, oracles and states -/

/-- An oracle whose analysis call always succeeds. -/
def okOracle : DrawingRec → Option String := fun _ => some "analysis text"

/-- An oracle whose analysis call always raises. -/
def badOracle : DrawingRec → Option String := fun _ => none

/-- A document with a single extractable image on one page. -/
def doc1 : PdfDoc := PdfDoc.pages [Page.imgs [Img.ok 7 [1]]]

/-- A document with three images on page 1 and two on page 2. -/
def doc32 : PdfDoc := PdfDoc.pages
  [Page.imgs [Img.ok 1 [1], Img.ok 2 [2], Img.ok 3 [3]],
   Page.imgs [Img.ok 4 [4], Img.ok 5 [5]]]

/-- A document that opens, yields one image, then raises while
enumerating its second page. -/
def docFault : PdfDoc := PdfDoc.pages [Page.imgs [Img.ok 1 [1]], Page.fault]

/-! ### Extractor lemmas -/

theorem extractImgs_append (pnum idx : Nat) (u v : List Img) :
    extractImgs pnum idx (u ++ v) =
      ((extractImgs pnum idx u).1 ++ (extractImgs pnum (idx + u.length) v).1,
       (extractImgs pnum idx u).2 ++ (extractImgs pnum (idx + u.length) v).2) := by
  induction u generalizing idx with
  | nil => simp [extractImgs]
  | cons a rest ih =>
    have harith : idx + 1 + rest.length = idx + (rest.length + 1) := by omega
    cases a with
    | ok x b =>
      simp only [List.cons_append, extractImgs, List.append_eq, ih (idx + 1),
                 List.length_cons, harith]
    | bad x =>
      simp only [List.cons_append, extractImgs, List.append_eq, ih (idx + 1),
                 List.length_cons, harith]

theorem extractImgs_mem (pnum idx : Nat) (l : List Img) (r : DrawingRec)
    (hr : r ∈ (extractImgs pnum idx l).1) :
    r.page = pnum + 1 ∧ idx + 1 ≤ r.drawing_number ∧
      l[r.drawing_number - (idx + 1)]? = some (Img.ok r.xref r.image_bytes) := by
  induction l generalizing idx with
  | nil => simp [extractImgs] at hr
  | cons a rest ih =>
    cases a with
    | ok x b =>
      simp only [extractImgs, List.mem_cons] at hr
      rcases hr with h | h
      · subst h
        refine ⟨rfl, Nat.le_refl _, ?_⟩
        simp
      · obtain ⟨h1, h2, h3⟩ := ih (idx + 1) h
        refine ⟨h1, Nat.le_of_succ_le h2, ?_⟩
        have hstep : r.drawing_number - (idx + 1) = (r.drawing_number - (idx + 2)) + 1 := by
          omega
        rw [hstep]
        simpa using h3
    | bad x =>
      simp only [extractImgs] at hr
      obtain ⟨h1, h2, h3⟩ := ih (idx + 1) hr
      refine ⟨h1, Nat.le_of_succ_le h2, ?_⟩
      have hstep : r.drawing_number - (idx + 1) = (r.drawing_number - (idx + 2)) + 1 := by
        omega
      rw [hstep]
      simpa using h3

theorem extractImgs_pairwise (pnum idx : Nat) (l : List Img) :
    ((extractImgs pnum idx l).1).Pairwise
      (fun a b => a.drawing_number < b.drawing_number) := by
  induction l generalizing idx with
  | nil => simp [extractImgs]
  | cons a rest ih =>
    cases a with
    | ok x b =>
      simp only [extractImgs]
      refine List.Pairwise.cons ?_ (ih (idx + 1))
      intro r hr
      have h := (extractImgs_mem pnum (idx + 1) rest r hr).2.1
      simp only []
      omega
    | bad x =>
      simpa [extractImgs] using ih (idx + 1)

theorem extractPages_mem (pnum : Nat) (ps : List Page) (r : DrawingRec)
    (hr : r ∈ (extractPages pnum ps).1) :
    pnum + 1 ≤ r.page ∧ 1 ≤ r.drawing_number ∧
      ∃ l, ps[r.page - (pnum + 1)]? = some (Page.imgs l) ∧
        l[r.drawing_number - 1]? = some (Img.ok r.xref r.image_bytes) := by
  induction ps generalizing pnum with
  | nil => simp [extractPages] at hr
  | cons p rest ih =>
    cases p with
    | fault => simp [extractPages] at hr
    | imgs l =>
      simp only [extractPages, List.mem_append] at hr
      rcases hr with h | h
      · obtain ⟨h1, h2, h3⟩ := extractImgs_mem pnum 0 l r h
        have hz : r.page - (pnum + 1) = 0 := by omega
        exact ⟨by omega, by omega, l, by rw [hz]; simp, by simpa using h3⟩
      · obtain ⟨h1, h2, l', h3, h4⟩ := ih (pnum + 1) h
        have hstep : r.page - (pnum + 1) = (r.page - (pnum + 2)) + 1 := by omega
        exact ⟨by omega, h2, l', by rw [hstep]; simpa using h3, h4⟩

theorem extractPages_pairwise (pnum : Nat) (ps : List Page) :
    ((extractPages pnum ps).1).Pairwise RecOrder := by
  induction ps generalizing pnum with
  | nil => simp [extractPages]
  | cons p rest ih =>
    cases p with
    | fault => simp [extractPages]
    | imgs l =>
      simp only [extractPages]
      rw [List.pairwise_append]
      refine ⟨?_, ih (pnum + 1), ?_⟩
      · refine (extractImgs_pairwise pnum 0 l).imp_of_mem ?_
        intro a b ha hb hab
        have h1 := (extractImgs_mem pnum 0 l a ha).1
        have h2 := (extractImgs_mem pnum 0 l b hb).1
        exact Or.inr ⟨h1.trans h2.symm, hab⟩
      · intro a ha b hb
        have h1 := (extractImgs_mem pnum 0 l a ha).1
        have h2 := (extractPages_mem (pnum + 1) rest b hb).1
        exact Or.inl (by omega)

theorem docRecords_pages (ps : List Page) :
    docRecords (PdfDoc.pages ps) = (extractPages 0 ps).1 := by
  simp only [docRecords, extract_drawings_list]
  split <;> simp [AnalyzerState.init]

theorem extract_state (s : AnalyzerState) (doc : PdfDoc) :
    (extract_drawings_list s doc).state =
      ⟨s.drawings_list ++ docRecords doc, s.analyzed_drawings⟩ := by
  cases doc with
  | unopenable => simp [extract_drawings_list, docRecords, AnalyzerState.init]
  | pages ps =>
    rw [docRecords_pages]
    simp only [extract_drawings_list]
    split <;> rfl

theorem extract_events_const (s : AnalyzerState) (doc : PdfDoc) :
    (extract_drawings_list s doc).events =
      (extract_drawings_list AnalyzerState.init doc).events := by
  cases doc with
  | unopenable => rfl
  | pages ps =>
    simp only [extract_drawings_list]
    split <;> rfl

theorem extractImgs_events_warn (pnum idx : Nat) (l : List Img) (e : Event)
    (he : e ∈ (extractImgs pnum idx l).2) : ∃ p d, e = Event.warnImg p d := by
  induction l generalizing idx with
  | nil => simp [extractImgs] at he
  | cons a rest ih =>
    cases a with
    | ok x b =>
      simp only [extractImgs] at he
      exact ih (idx + 1) he
    | bad x =>
      simp only [extractImgs, List.mem_cons] at he
      rcases he with h | h
      · exact ⟨pnum + 1, idx + 1, h⟩
      · exact ih (idx + 1) h

theorem extractPages_events_warn (pnum : Nat) (ps : List Page) (e : Event)
    (he : e ∈ (extractPages pnum ps).2.1) : ∃ p d, e = Event.warnImg p d := by
  induction ps generalizing pnum with
  | nil => simp [extractPages] at he
  | cons p rest ih =>
    cases p with
    | fault => simp [extractPages] at he
    | imgs l =>
      simp only [extractPages, List.mem_append] at he
      rcases he with h | h
      · exact extractImgs_events_warn pnum 0 l e h
      · exact ih (pnum + 1) h

theorem extract_count_extractCall (s : AnalyzerState) (doc : PdfDoc) :
    (extract_drawings_list s doc).events.count Event.extractCall = 1 := by
  cases doc with
  | unopenable => rfl
  | pages ps =>
    have h : (extractPages 0 ps).2.1.count Event.extractCall = 0 := by
      rw [List.count_eq_zero]
      intro hmem
      obtain ⟨p, d, hpd⟩ := extractPages_events_warn 0 ps _ hmem
      exact Event.noConfusion hpd
    simp only [extract_drawings_list]
    split <;> simp [List.count_cons, List.count_append, h]

/-! ### Controller branch lemmas -/

theorem displayResults_count_extractCall (s : SessionState) :
    (displayResults s).count Event.extractCall = 0 := by
  rw [List.count_eq_zero]
  simp [displayResults]

theorem extractBranch_of_processed (s : SessionState) (doc : PdfDoc)
    (h : s.processed = true) : extractBranch s doc = (s, []) := by
  simp [extractBranch, h]

theorem extractBranch_state (s : SessionState) (doc : PdfDoc)
    (h : s.processed = false) :
    (extractBranch s doc).1 =
      ⟨true, ⟨s.analyzer.drawings_list ++ docRecords doc, s.analyzer.analyzed_drawings⟩,
       s.current_analysis_index, s.analyzed_drawings⟩ := by
  simp [extractBranch, h, extract_state]

theorem extractBranch_processed (s : SessionState) (doc : PdfDoc) :
    (extractBranch s doc).1.processed = true := by
  cases hp : s.processed <;> simp [extractBranch, hp]

theorem analysisBranch_not_processed (o : DrawingRec → Option String)
    (s : SessionState) (h : s.processed = false) :
    analysisBranch o s = ⟨s, displayResults s, false⟩ := by
  simp [analysisBranch, h]

theorem analysisBranch_done (o : DrawingRec → Option String) (s : SessionState)
    (h : s.processed = true)
    (hge : min 5 s.analyzer.drawings_list.length ≤ s.current_analysis_index) :
    analysisBranch o s =
      ⟨s, (if s.analyzer.drawings_list.length > 5 then [Event.moreExist] else [])
            ++ displayResults s, false⟩ := by
  have hns : ¬ (min 5 s.analyzer.drawings_list.length - s.current_analysis_index > 0) := by
    omega
  simp only [analysisBranch, h, if_true, if_neg hns]
  split <;> simp

theorem analysisBranch_success (o : DrawingRec → Option String) (s : SessionState)
    (t : String)
    (h : s.processed = true)
    (hlt : s.current_analysis_index < min 5 s.analyzer.drawings_list.length)
    (ho : o (s.analyzer.drawings_list.getD s.current_analysis_index defaultRec) = some t) :
    analysisBranch o s =
      (let d := s.analyzer.drawings_list.getD s.current_analysis_index defaultRec
       let cap := min 5 s.analyzer.drawings_list.length
       let s2 : SessionState := ⟨true, s.analyzer, s.current_analysis_index + 1,
           s.analyzed_drawings ++ [⟨d.page, d.drawing_number, d.image_bytes, t⟩]⟩
       if s.current_analysis_index + 1 < cap then
         ⟨s2, [Event.analyzingHeader (s.current_analysis_index + 1) cap], true⟩
       else
         ⟨s2, [Event.analyzingHeader (s.current_analysis_index + 1) cap,
               Event.batchComplete] ++ displayResults s2, false⟩) := by
  have hpos : min 5 s.analyzer.drawings_list.length - s.current_analysis_index > 0 := by
    omega
  simp only [analysisBranch, h, if_true, hpos, analyze_drawing, ho]
  by_cases h1 : s.current_analysis_index + 1 < min 5 s.analyzer.drawings_list.length
  · have h2 : min 5 s.analyzer.drawings_list.length - s.current_analysis_index > 1 := by
      omega
    simp [h1, h2]
  · have h2 : ¬ (min 5 s.analyzer.drawings_list.length - s.current_analysis_index > 1) := by
      omega
    simp [h1, h2]

theorem analysisBranch_failure (o : DrawingRec → Option String) (s : SessionState)
    (h : s.processed = true)
    (hlt : s.current_analysis_index < min 5 s.analyzer.drawings_list.length)
    (ho : o (s.analyzer.drawings_list.getD s.current_analysis_index defaultRec) = none) :
    analysisBranch o s =
      ⟨s, Event.analyzingHeader (s.current_analysis_index + 1)
            (min 5 s.analyzer.drawings_list.length)
          :: Event.inferError
               (s.analyzer.drawings_list.getD s.current_analysis_index
                 defaultRec).drawing_number
          :: displayResults s, false⟩ := by
  have hpos : min 5 s.analyzer.drawings_list.length - s.current_analysis_index > 0 := by
    omega
  simp only [analysisBranch, h, if_true, hpos, if_pos hpos, analyze_drawing, ho,
             List.cons_append, List.nil_append]

theorem tick_none (o : DrawingRec → Option String) (s : SessionState) :
    tick o s none = ⟨s, [Event.infoUpload], false⟩ := rfl

theorem tick_some (o : DrawingRec → Option String) (s : SessionState) (doc : PdfDoc) :
    tick o s (some doc) =
      ⟨(analysisBranch o (extractBranch s doc).1).state,
       (extractBranch s doc).2 ++ (analysisBranch o (extractBranch s doc).1).events,
       (analysisBranch o (extractBranch s doc).1).rerun⟩ := rfl

/-- The controller invariant of the spec: the cursor equals the number of
accumulated results and never exceeds `min(5, totalRecords)`. -/
def ControllerInv (s : SessionState) : Prop :=
  s.current_analysis_index = s.analyzed_drawings.length ∧
  s.current_analysis_index ≤ min 5 s.analyzer.drawings_list.length

theorem controllerInv_init : ControllerInv SessionState.init := by
  constructor <;> simp [SessionState.init, AnalyzerState.init]

theorem extractBranch_inv (s : SessionState) (doc : PdfDoc) (h : ControllerInv s) :
    ControllerInv (extractBranch s doc).1 := by
  cases hp : s.processed with
  | true => rw [extractBranch_of_processed s doc hp]; exact h
  | false =>
    rw [extractBranch_state s doc hp]
    obtain ⟨h1, h2⟩ := h
    refine ⟨h1, ?_⟩
    simp only [ControllerInv, List.length_append]
    exact le_trans h2 (min_le_min (le_refl 5) (Nat.le_add_right _ _))

theorem analysisBranch_inv (o : DrawingRec → Option String) (s : SessionState)
    (h : ControllerInv s) : ControllerInv (analysisBranch o s).state := by
  obtain ⟨h1, h2⟩ := h
  cases hp : s.processed with
  | false => rw [analysisBranch_not_processed o s hp]; exact ⟨h1, h2⟩
  | true =>
    by_cases hlt : s.current_analysis_index < min 5 s.analyzer.drawings_list.length
    · cases ho : o (s.analyzer.drawings_list.getD s.current_analysis_index defaultRec) with
      | none => rw [analysisBranch_failure o s hp hlt ho]; exact ⟨h1, h2⟩
      | some t =>
        rw [analysisBranch_success o s t hp hlt ho]
        by_cases hc : s.current_analysis_index + 1 < min 5 s.analyzer.drawings_list.length
        · simp only [if_pos hc]
          refine ⟨by simp [h1], ?_⟩
          show s.current_analysis_index + 1 ≤ min 5 s.analyzer.drawings_list.length
          omega
        · simp only [if_neg hc]
          refine ⟨by simp [h1], ?_⟩
          show s.current_analysis_index + 1 ≤ min 5 s.analyzer.drawings_list.length
          omega
    · rw [analysisBranch_done o s hp (by omega)]; exact ⟨h1, h2⟩

theorem tick_inv (o : DrawingRec → Option String) (s : SessionState)
    (u : Option PdfDoc) (h : ControllerInv s) : ControllerInv (tick o s u).state := by
  cases u with
  | none => exact h
  | some doc => exact analysisBranch_inv o _ (extractBranch_inv s doc h)

theorem runTicks_inv (s : SessionState) (inputs : List TickInput)
    (h : ControllerInv s) : ControllerInv (runTicks s inputs).1 := by
  induction inputs generalizing s with
  | nil => exact h
  | cons i rest ih =>
    simp only [runTicks]
    exact ih _ (tick_inv i.oracle s i.upload h)

theorem tick_some_processed (o : DrawingRec → Option String) (s : SessionState)
    (doc : PdfDoc) (h : s.processed = true) :
    tick o s (some doc) =
      ⟨(analysisBranch o s).state, (analysisBranch o s).events,
       (analysisBranch o s).rerun⟩ := by
  show (⟨(analysisBranch o (extractBranch s doc).1).state,
         (extractBranch s doc).2 ++ (analysisBranch o (extractBranch s doc).1).events,
         (analysisBranch o (extractBranch s doc).1).rerun⟩ : TickOut) = _
  rw [extractBranch_of_processed s doc h]
  rfl

theorem analysisBranch_preserves (o : DrawingRec → Option String) (s : SessionState) :
    (analysisBranch o s).state.processed = s.processed ∧
    (analysisBranch o s).state.analyzer = s.analyzer ∧
    (analysisBranch o s).events.count Event.extractCall = 0 := by
  cases hp : s.processed with
  | false =>
    rw [analysisBranch_not_processed o s hp]
    exact ⟨hp, rfl, displayResults_count_extractCall s⟩
  | true =>
    by_cases hlt : s.current_analysis_index < min 5 s.analyzer.drawings_list.length
    · cases ho : o (s.analyzer.drawings_list.getD s.current_analysis_index defaultRec) with
      | none =>
        rw [analysisBranch_failure o s hp hlt ho]
        refine ⟨hp, rfl, ?_⟩
        simp [List.count_cons, displayResults_count_extractCall s]
      | some t =>
        rw [analysisBranch_success o s t hp hlt ho]
        by_cases hc : s.current_analysis_index + 1 < min 5 s.analyzer.drawings_list.length
        · rw [if_pos hc]
          refine ⟨rfl, rfl, ?_⟩
          simp [List.count_cons]
        · rw [if_neg hc]
          refine ⟨rfl, rfl, ?_⟩
          simp [List.count_cons, List.count_append, displayResults_count_extractCall]
    · rw [analysisBranch_done o s hp (by omega)]
      refine ⟨hp, rfl, ?_⟩
      split <;> simp [List.count_cons, List.count_append, displayResults_count_extractCall]

theorem tick_processed_preserved (o : DrawingRec → Option String) (s : SessionState)
    (u : Option PdfDoc) (h : s.processed = true) :
    (tick o s u).state.processed = true ∧
    (tick o s u).state.analyzer = s.analyzer ∧
    (tick o s u).events.count Event.extractCall = 0 := by
  cases u with
  | none => exact ⟨h, rfl, rfl⟩
  | some doc =>
    rw [tick_some_processed o s doc h]
    obtain ⟨a1, a2, a3⟩ := analysisBranch_preserves o s
    exact ⟨a1.trans h, a2, a3⟩

theorem runTicks_no_reextract (s : SessionState) (inputs : List TickInput)
    (h : s.processed = true) :
    (runTicks s inputs).1.processed = true ∧
    (runTicks s inputs).1.analyzer = s.analyzer ∧
    (runTicks s inputs).2.count Event.extractCall = 0 := by
  induction inputs generalizing s with
  | nil => exact ⟨h, rfl, rfl⟩
  | cons i rest ih =>
    simp only [runTicks]
    obtain ⟨p1, p2, p3⟩ := tick_processed_preserved i.oracle s i.upload h
    obtain ⟨q1, q2, q3⟩ := ih _ p1
    exact ⟨q1, q2.trans p2, by simp [List.count_append, p3, q3]⟩

theorem tick_done (o : DrawingRec → Option String) (s : SessionState)
    (u : Option PdfDoc) (h1 : s.processed = true)
    (h2 : s.current_analysis_index = min 5 s.analyzer.drawings_list.length) :
    (tick o s u).state = s := by
  cases u with
  | none => rfl
  | some doc =>
    rw [tick_some_processed o s doc h1]
    rw [analysisBranch_done o s h1 (by omega)]

theorem runTicks_done (s : SessionState) (inputs : List TickInput)
    (h1 : s.processed = true)
    (h2 : s.current_analysis_index = min 5 s.analyzer.drawings_list.length) :
    (runTicks s inputs).1 = s := by
  induction inputs with
  | nil => rfl
  | cons i rest ih =>
    simp only [runTicks]
    rw [tick_done i.oracle s i.upload h1 h2]
    exact ih

/-! ### Additional concrete states for witnesses -/

/-- A session mid-analysis: extraction done, one stored record, cursor 0. -/
def sAnalyzing : SessionState := ⟨true, ⟨[⟨1, 1, 7, [1]⟩], []⟩, 0, []⟩

/-- A session in the DONE state: one record, cursor 1 = min 5 1, one result. -/
def sDone : SessionState :=
  ⟨true, ⟨[⟨1, 1, 7, [1]⟩], []⟩, 1, [⟨1, 1, [1], "analysis text"⟩]⟩

/-! ### Claim theorems -/

/-- C1: after any sequence of ticks within one session (starting from the
initialized session state), the analysis cursor equals the number of
accumulated analysis results, and never exceeds the cap
`min(5, totalRecords)` of extracted drawing records. -/
theorem cursor_matches_results_and_cap (inputs : List TickInput) :
    (runTicks SessionState.init inputs).1.current_analysis_index
        = (runTicks SessionState.init inputs).1.analyzed_drawings.length ∧
    (runTicks SessionState.init inputs).1.current_analysis_index
        ≤ min 5 (runTicks SessionState.init inputs).1.analyzer.drawings_list.length :=
  runTicks_inv SessionState.init inputs controllerInv_init

/-- C3, documenting the code bug: on a fresh session, an unopenable
document makes `extract_drawings_list` swallow the error internally and
return 0, so the tick reports the failure, stores no records and performs
no analysis — but line 124 still sets the extracted flag to `true`,
instead of leaving it false as specified (the reset at line 137 is
unreachable because the extractor catches its own exceptions). -/
theorem unopenable_doc_sets_processed_flag :
    SessionState.init.processed = false ∧
    (tick okOracle SessionState.init (some PdfDoc.unopenable)).state =
      ⟨true, AnalyzerState.init, 0, []⟩ ∧
    (tick okOracle SessionState.init (some PdfDoc.unopenable)).events =
      [Event.extractCall, Event.extractError, Event.found 0] ∧
    (tick okOracle SessionState.init (some PdfDoc.unopenable)).rerun = false :=
  ⟨rfl, rfl, rfl, rfl⟩

/-- C4: when the external analysis call on the current drawing fails, the
tick reports the failure for that drawing only (one error event naming
its drawing number), does not advance the cursor, appends nothing to the
results, requests no rerun, and leaves the session state unchanged. -/
theorem analysis_failure_fail_stop (o : DrawingRec → Option String)
    (s : SessionState) (doc : PdfDoc)
    (h1 : s.processed = true)
    (h2 : s.current_analysis_index < min 5 s.analyzer.drawings_list.length)
    (h3 : o (s.analyzer.drawings_list.getD s.current_analysis_index defaultRec)
          = none) :
    tick o s (some doc) =
      ⟨s,
       Event.analyzingHeader (s.current_analysis_index + 1)
           (min 5 s.analyzer.drawings_list.length)
         :: Event.inferError (s.analyzer.drawings_list.getD s.current_analysis_index
              defaultRec).drawing_number
         :: displayResults s,
       false⟩ := by
  rw [tick_some_processed o s doc h1, analysisBranch_failure o s h1 h2 h3]

/-- Witness for C4 at concrete inputs: a failing oracle on a one-record
session leaves the state untouched and surfaces a single error. -/
theorem analysis_failure_fail_stop_witness :
    tick badOracle sAnalyzing (some doc1) =
      ⟨sAnalyzing, [Event.analyzingHeader 1 1, Event.inferError 1], false⟩ :=
  analysis_failure_fail_stop badOracle sAnalyzing doc1 rfl (by decide) rfl

/-- C5: once the controller has reached DONE (extraction done and the
cursor equal to the cap `min(5, totalRecords)`), any further sequence of
ticks — with any uploads and oracles — leaves the whole session state, in
particular `results` and `cursor`, unchanged. -/
theorem tick_idempotent_after_done (s : SessionState) (inputs : List TickInput)
    (h1 : s.processed = true)
    (h2 : s.current_analysis_index = min 5 s.analyzer.drawings_list.length) :
    (runTicks s inputs).1 = s :=
  runTicks_done s inputs h1 h2

/-- Witness for C5 at concrete inputs: ticking a DONE one-record session
twice changes nothing. -/
theorem tick_idempotent_after_done_witness :
    (runTicks sDone [⟨okOracle, some doc1⟩, ⟨badOracle, none⟩]).1 = sDone :=
  tick_idempotent_after_done sDone [⟨okOracle, some doc1⟩, ⟨badOracle, none⟩]
    rfl (by decide)

/-- C6: the records extracted from any document are ordered by page
ascending then page-local index ascending, and each record's
`drawing_number` is the 1-based position of its image within its own
page's image list — so the numbering restarts at 1 on every page. -/
theorem extract_ordered_and_numbered (ps : List Page) :
    (docRecords (PdfDoc.pages ps)).Pairwise RecOrder ∧
    ∀ r ∈ docRecords (PdfDoc.pages ps),
      1 ≤ r.page ∧ 1 ≤ r.drawing_number ∧
      ∃ l, ps[r.page - 1]? = some (Page.imgs l) ∧
        l[r.drawing_number - 1]? = some (Img.ok r.xref r.image_bytes) := by
  rw [docRecords_pages]
  refine ⟨extractPages_pairwise 0 ps, ?_⟩
  intro r hr
  obtain ⟨h1, h2, l, h3, h4⟩ := extractPages_mem 0 ps r hr
  exact ⟨by omega, h2, l, by simpa using h3, h4⟩

/-- C7: when one image on a page fails to extract, that single image is
skipped with one warning and extraction continues with the next image;
comparing the same page with the failing image replaced by an extractable
one, every later image receives exactly the same drawing number (the
successor record segment is identical — no renumbering). -/
theorem skip_does_not_renumber (pnum idx x : Nat) (b : List Nat)
    (front back : List Img) :
    (extractImgs pnum idx (front ++ Img.bad x :: back)).1
        = (extractImgs pnum idx front).1
          ++ (extractImgs pnum (idx + front.length + 1) back).1 ∧
    (extractImgs pnum idx (front ++ Img.bad x :: back)).2
        = (extractImgs pnum idx front).2
          ++ Event.warnImg (pnum + 1) (idx + front.length + 1)
             :: (extractImgs pnum (idx + front.length + 1) back).2 ∧
    (extractImgs pnum idx (front ++ Img.ok x b :: back)).1
        = (extractImgs pnum idx front).1
          ++ ⟨pnum + 1, idx + front.length + 1, x, b⟩
             :: (extractImgs pnum (idx + front.length + 1) back).1 := by
  refine ⟨?_, ?_, ?_⟩ <;>
    simp [extractImgs_append, extractImgs, Nat.add_assoc]

/-- C8 counterexample: two invocations of `extract_drawings_list` on the
same document bytes return count 1 then count 2 and leave different
stored record sequences, because the method appends to the instance list
without clearing it — so extract is not a pure function of the document
bytes alone. -/
theorem extract_second_invocation_differs :
    (extract_drawings_list AnalyzerState.init doc1).ret = 1 ∧
    (extract_drawings_list (extract_drawings_list AnalyzerState.init doc1).state
        doc1).ret = 2 ∧
    (extract_drawings_list (extract_drawings_list AnalyzerState.init doc1).state
        doc1).state.drawings_list
      ≠ (extract_drawings_list AnalyzerState.init doc1).state.drawings_list := by
  refine ⟨rfl, rfl, ?_⟩
  decide

/-- C8 amended: extraction is deterministic and touches no state besides
its own output list: it appends `docRecords doc` — a function of the
document alone — to `drawings_list`, leaves `analyzed_drawings` alone,
emits an event trace that depends only on the document, and returns the
length of the *accumulated* list on success (0 on failure), so a repeat
invocation on the same analyzer reports the doubled total rather than an
equal count. -/
theorem extract_appends_pure_segment (s : AnalyzerState) (doc : PdfDoc) :
    (extract_drawings_list s doc).state.drawings_list
        = s.drawings_list ++ docRecords doc ∧
    (extract_drawings_list s doc).state.analyzed_drawings = s.analyzed_drawings ∧
    (extract_drawings_list s doc).events
        = (extract_drawings_list AnalyzerState.init doc).events ∧
    (extract_drawings_list s doc).ret
        = match doc with
          | PdfDoc.unopenable => 0
          | PdfDoc.pages ps =>
              if (extractPages 0 ps).2.2 then 0
              else s.drawings_list.length + (docRecords doc).length := by
  refine ⟨?_, ?_, extract_events_const s doc, ?_⟩
  · rw [extract_state]
  · rw [extract_state]
  · cases doc with
    | unopenable => rfl
    | pages ps =>
      rw [docRecords_pages]
      simp only [extract_drawings_list]
      split <;> simp [List.length_append]

/-- C9 counterexample: on a document that opens successfully but whose
page enumeration raises while iterating (one record already extracted),
the handle is opened and never closed before the method returns —
`doc.close()` sits on the success path only, with no finally block. -/
theorem handle_not_closed_on_page_fault :
    Event.openDoc ∈ (extract_drawings_list AnalyzerState.init docFault).events ∧
    Event.closeDoc ∉ (extract_drawings_list AnalyzerState.init docFault).events := by
  decide

/-- C9 amended: a handle is created exactly when the document opens; it is
released before returning exactly when the page loop runs to completion —
which includes every run that merely skips unextractable images — but
when an error escapes the page loop to the outer handler after opening,
the handle is not released.  Beyond appending the extracted records to
its own output list, extraction changes no other analyzer state. -/
theorem handle_release_characterization (s : AnalyzerState) (doc : PdfDoc) :
    (Event.openDoc ∈ (extract_drawings_list s doc).events ↔
        ∃ ps, doc = PdfDoc.pages ps) ∧
    (Event.closeDoc ∈ (extract_drawings_list s doc).events ↔
        ∃ ps, doc = PdfDoc.pages ps ∧ (extractPages 0 ps).2.2 = false) ∧
    (extract_drawings_list s doc).state =
      ⟨s.drawings_list ++ docRecords doc, s.analyzed_drawings⟩ := by
  refine ⟨?_, ?_, extract_state s doc⟩
  · cases doc with
    | unopenable => simp [extract_drawings_list]
    | pages ps =>
      simp only [extract_drawings_list]
      constructor
      · intro _
        exact ⟨ps, rfl⟩
      · intro _
        split <;> simp
  · cases doc with
    | unopenable => simp [extract_drawings_list]
    | pages ps =>
      have hw : Event.closeDoc ∉ (extractPages 0 ps).2.1 := by
        intro hmem
        obtain ⟨p, d, hpd⟩ := extractPages_events_warn 0 ps _ hmem
        exact Event.noConfusion hpd
      simp only [extract_drawings_list]
      cases habort : (extractPages 0 ps).2.2 with
      | true => simp [habort, hw, PdfDoc.pages.injEq]
      | false => simp [habort, hw, PdfDoc.pages.injEq]

/-- C10: once a tick has set the extracted flag, the extractor is never
invoked again on any later tick of that session, whatever file contents
are uploaded: the flag stays set, the stored drawing records (hence their
count and page/drawingNumber labels) remain those of the first
extraction, and no extractor-entry event occurs in any later trace. -/
theorem no_reextraction_after_processed (s : SessionState) (inputs : List TickInput)
    (h : s.processed = true) :
    (runTicks s inputs).1.processed = true ∧
    (runTicks s inputs).1.analyzer = s.analyzer ∧
    (runTicks s inputs).2.count Event.extractCall = 0 :=
  runTicks_no_reextract s inputs h

/-- Witness for C10 at concrete inputs: after extraction, uploading a
different PDF (`doc32`) leaves the stored records untouched and triggers
no further extractor call. -/
theorem no_reextraction_after_processed_witness :
    (runTicks sAnalyzing [⟨okOracle, some doc32⟩]).1.processed = true ∧
    (runTicks sAnalyzing [⟨okOracle, some doc32⟩]).1.analyzer = sAnalyzing.analyzer ∧
    (runTicks sAnalyzing [⟨okOracle, some doc32⟩]).2.count Event.extractCall = 0 :=
  no_reextraction_after_processed sAnalyzing [⟨okOracle, some doc32⟩] rfl

/-- C2 counterexample: starting from a fresh session (extracted flag
false) with a one-drawing document and a succeeding oracle, the very tick
that performs extraction also appends an analysis result — the claim's
"no analysis performed during that same tick" is false, because the
analysis branch at app.py line 140 is a separate `if` that sees
`processed == True` in the same run. -/
theorem extraction_tick_also_analyzes :
    SessionState.init.processed = false ∧
    (tick okOracle SessionState.init (some doc1)).state.analyzed_drawings.length
      = 1 ∧
    (tick okOracle SessionState.init (some doc1)).state.current_analysis_index
      = 1 :=
  ⟨rfl, rfl, rfl⟩

theorem count_extractCall_map_label (l : List DrawingRec) :
    (l.map (fun d => Event.label d.drawing_number d.page)).count
      Event.extractCall = 0 := by
  rw [List.count_eq_zero]
  simp

theorem extractBranch_events (s : SessionState) (doc : PdfDoc)
    (h : s.processed = false) :
    (extractBranch s doc).2 =
      (extract_drawings_list s.analyzer doc).events
        ++ [Event.found (extract_drawings_list s.analyzer doc).ret]
        ++ (extract_drawings_list s.analyzer doc).state.drawings_list.map
             (fun d => Event.label d.drawing_number d.page) := by
  simp [extractBranch, h]

/-- C2 amended: on the tick in which the extracted flag is false, the
controller calls the extractor exactly once, stores the returned record
list, sets the flag to true, and emits the summary (the found-count plus
one label line per stored record); but the run does not return there —
the analysis branch executes in the same tick on the post-extraction
state, so when the cursor is below the cap and the oracle succeeds on the
current drawing, an analysis result is appended and the cursor advances
during that very tick. -/
theorem extraction_tick_behavior (o : DrawingRec → Option String)
    (s : SessionState) (doc : PdfDoc) (h : s.processed = false) :
    (tick o s (some doc)).events.count Event.extractCall = 1 ∧
    (tick o s (some doc)).state.processed = true ∧
    (tick o s (some doc)).state.analyzer
        = (extract_drawings_list s.analyzer doc).state ∧
    Event.found (extract_drawings_list s.analyzer doc).ret
        ∈ (tick o s (some doc)).events ∧
    (∀ d ∈ (extract_drawings_list s.analyzer doc).state.drawings_list,
        Event.label d.drawing_number d.page ∈ (tick o s (some doc)).events) ∧
    (∀ t : String,
        s.current_analysis_index
            < min 5 (extract_drawings_list s.analyzer doc).state.drawings_list.length →
        o ((extract_drawings_list s.analyzer doc).state.drawings_list.getD
              s.current_analysis_index defaultRec) = some t →
        (tick o s (some doc)).state.current_analysis_index
            = s.current_analysis_index + 1 ∧
        (tick o s (some doc)).state.analyzed_drawings.length
            = s.analyzed_drawings.length + 1) := by
  have hE := extractBranch_state s doc h
  have hX := extract_state s.analyzer doc
  refine ⟨?_, ?_, ?_, ?_, ?_, ?_⟩
  · show ((extractBranch s doc).2
        ++ (analysisBranch o (extractBranch s doc).1).events).count
          Event.extractCall = 1
    rw [List.count_append, extractBranch_events s doc h,
        (analysisBranch_preserves o (extractBranch s doc).1).2.2,
        List.count_append, List.count_append, extract_count_extractCall,
        count_extractCall_map_label]
    simp [List.count_cons]
  · show (analysisBranch o (extractBranch s doc).1).state.processed = true
    exact ((analysisBranch_preserves o _).1).trans (extractBranch_processed s doc)
  · show (analysisBranch o (extractBranch s doc).1).state.analyzer
        = (extract_drawings_list s.analyzer doc).state
    rw [(analysisBranch_preserves o _).2.1, hE, hX]
  · show Event.found (extract_drawings_list s.analyzer doc).ret
        ∈ (extractBranch s doc).2
          ++ (analysisBranch o (extractBranch s doc).1).events
    rw [extractBranch_events s doc h]
    simp
  · intro d hd
    show Event.label d.drawing_number d.page
        ∈ (extractBranch s doc).2
          ++ (analysisBranch o (extractBranch s doc).1).events
    rw [extractBranch_events s doc h]
    refine List.mem_append_left _ (List.mem_append_right _ ?_)
    exact List.mem_map_of_mem _ hd
  · intro t hlt ho
    have hp := extractBranch_processed s doc
    have hlt' : (extractBranch s doc).1.current_analysis_index
        < min 5 (extractBranch s doc).1.analyzer.drawings_list.length := by
      rw [hE]
      show s.current_analysis_index
          < min 5 (s.analyzer.drawings_list ++ docRecords doc).length
      have h2 := hlt
      rw [hX] at h2
      exact h2
    have ho' : o ((extractBranch s doc).1.analyzer.drawings_list.getD
        (extractBranch s doc).1.current_analysis_index defaultRec) = some t := by
      rw [hE]
      show o ((s.analyzer.drawings_list ++ docRecords doc).getD
          s.current_analysis_index defaultRec) = some t
      have h2 := ho
      rw [hX] at h2
      exact h2
    by_cases hc : (extractBranch s doc).1.current_analysis_index + 1
        < min 5 (extractBranch s doc).1.analyzer.drawings_list.length
    · constructor
      · show (analysisBranch o (extractBranch s doc).1).state.current_analysis_index
            = s.current_analysis_index + 1
        rw [analysisBranch_success o _ t hp hlt' ho', if_pos hc, hE]
      · show (analysisBranch o (extractBranch s doc).1).state.analyzed_drawings.length
            = s.analyzed_drawings.length + 1
        rw [analysisBranch_success o _ t hp hlt' ho', if_pos hc, hE]
        simp
    · constructor
      · show (analysisBranch o (extractBranch s doc).1).state.current_analysis_index
            = s.current_analysis_index + 1
        rw [analysisBranch_success o _ t hp hlt' ho', if_neg hc, hE]
      · show (analysisBranch o (extractBranch s doc).1).state.analyzed_drawings.length
            = s.analyzed_drawings.length + 1
        rw [analysisBranch_success o _ t hp hlt' ho', if_neg hc, hE]
        simp

/-- Witness for C2 amended at concrete inputs: on a fresh session with a
one-drawing document and a succeeding oracle, the extraction tick calls
the extractor exactly once. -/
theorem extraction_tick_behavior_witness :
    (tick okOracle SessionState.init (some doc1)).events.count Event.extractCall = 1
      ∧ (tick okOracle SessionState.init (some doc1)).state.processed = true :=
  ⟨(extraction_tick_behavior okOracle SessionState.init doc1 rfl).1,
   (extraction_tick_behavior okOracle SessionState.init doc1 rfl).2.1⟩
